import Mathlib

/-!
# Verification of the `ecsnap` ECS core

A shallow embedding of the entity/component storage model and the system
dispatch protocol of the `ecsnap` crate (src/entity.rs, src/world.rs,
src/system.rs), together with proofs about it.

Rust's type-erased storage `HashMap<TypeId, Box<dyn Any>>` is embedded as an
association list over a type universe: a parameter `Ty` (the compile-time
type identifiers, `TypeId`) with an interpretation `El : Ty → Type` (the
values of each type).  A `Box<dyn Any>` is a dependent pair `Sigma El`
carrying its dynamic type tag; `Any::downcast` to `C` succeeds exactly when
the stored tag equals `C`.  Rust panics are embedded as `Except Unit`, with
`.error ()` the panic.  Components are `Copy` in this crate, so `clone()` is
the identity.
-/

set_option autoImplicit false

namespace Ecsnap

variable {K : Type} [DecidableEq K] {V : Type}

/-- `HashMap::get`: first binding of key `k` in an association list. -/
def mapLookup : List (K × V) → K → Option V
  | [], _ => none
  | p :: rest, k => if p.1 = k then some p.2 else mapLookup rest k

/-- `HashMap::insert`: replace the binding of `k` in place, or append it. -/
def mapInsert : List (K × V) → K → V → List (K × V)
  | [], k, v => [(k, v)]
  | p :: rest, k, v => if p.1 = k then (k, v) :: rest else p :: mapInsert rest k v

/-- `HashMap::remove`: detach the binding of `k`, returning it and the rest. -/
def mapRemove : List (K × V) → K → Option V × List (K × V)
  | [], _ => (none, [])
  | p :: rest, k =>
    if p.1 = k then (some p.2, rest)
    else
      let r := mapRemove rest k
      (r.1, p :: r.2)

section TypedStore

variable {Ty : Type} [DecidableEq Ty] {El : Ty → Type}

/-- `Box<dyn Any>::downcast::<C>`: succeeds iff the stored dynamic type tag
equals `c`, in which case the payload is transported to `El c`. -/
def downcast (c : Ty) (v : Sigma El) : Option (El c) :=
  if h : v.1 = c then some (h ▸ v.2) else none

/-- `Entity` (src/entity.rs): `components: HashMap<TypeId, Box<dyn Any>>`. -/
structure Entity (Ty : Type) (El : Ty → Type) where
  components : List (Ty × Sigma El)

/-- `Entity::add_component::<C>`: `insert` the boxed value under
`TypeId::of::<C>`; if a previous value existed, downcast it to `C` and
return it, panicking (`.error ()`) if the downcast fails. -/
def Entity.add_component (e : Entity Ty El) (c : Ty) (v : El c) :
    Except Unit (Option (El c) × Entity Ty El) :=
  let old := mapLookup e.components c
  let e' : Entity Ty El := ⟨mapInsert e.components c ⟨c, v⟩⟩
  match old with
  | none => .ok (none, e')
  | some bx =>
    match downcast c bx with
    | some comp => .ok (some comp, e')
    | none => .error ()

/-- `Entity::get_component::<C>`: `get` then `downcast_ref` (no panic:
a missing key or a failed downcast both give `none`). -/
def Entity.get_component (e : Entity Ty El) (c : Ty) : Option (El c) :=
  match mapLookup e.components c with
  | some bx => downcast c bx
  | none => none

/-- `Entity::get_mut_component::<C>`:
`self.components.get_mut(&TypeId::of::<C>()).unwrap().downcast_mut::<C>()` —
the `unwrap` panics (`.error ()`) when the key is absent; a present key with
a failed downcast gives `.ok none`. -/
def Entity.get_mut_component (e : Entity Ty El) (c : Ty) :
    Except Unit (Option (El c)) :=
  match mapLookup e.components c with
  | some bx => .ok (downcast c bx)
  | none => .error ()

/-- `Entity::remove_component::<C>`: `remove`; if a value was detached,
downcast it to `C`, panicking (`.error ()`) if the downcast fails. -/
def Entity.remove_component (e : Entity Ty El) (c : Ty) :
    Except Unit (Option (El c) × Entity Ty El) :=
  match mapRemove e.components c with
  | (none, _) => .ok (none, e)
  | (some bx, rest) =>
    match downcast c bx with
    | some comp => .ok (some comp, ⟨rest⟩)
    | none => .error ()

/-- The entity holds a component of type `c` (its `get_component` succeeds). -/
def Entity.has (e : Entity Ty El) (c : Ty) : Bool :=
  (e.get_component c).isSome

/-- The storage invariant of the type-erased map: the value stored under a
type identifier really is of the type that identifier denotes. -/
def Entity.WT (e : Entity Ty El) : Prop :=
  ∀ p ∈ e.components, (p.2).1 = p.1

instance (e : Entity Ty El) : Decidable e.WT := by
  unfold Entity.WT
  infer_instance

/-- The `Data` shapes a `SystemData` implementation exists for
(src/system.rs): `()`, a single component `C`, or a pair `(A, B)`. -/
inductive Shape (Ty : Type) where
  | unit : Shape Ty
  | single (c : Ty) : Shape Ty
  | pair (a b : Ty) : Shape Ty

/-- The Lean type of the data fetched for a shape. -/
def ShapeData (El : Ty → Type) : Shape Ty → Type
  | .unit => Unit
  | .single c => El c
  | .pair a b => El a × El b

/-- `SystemData::fetch` (src/system.rs): the `()` instance returns `None`;
the single-component instance clones the component if present; the pair
instance clones both components if both are present, else `None`. -/
def fetchData : (sh : Shape Ty) → Entity Ty El → Option (ShapeData El sh)
  | .unit, _ => none
  | .single c, e => e.get_component c
  | .pair a b, e =>
    match e.get_component a, e.get_component b with
    | some x, some y => some (x, y)
    | _, _ => none

/-- `SystemData::set` (src/system.rs): write every member of the shape back
into the entity with `add_component` (a panic from `add_component`
propagates). -/
def setData : (sh : Shape Ty) → ShapeData El sh → Entity Ty El →
    Except Unit (Entity Ty El)
  | .unit, _, e => .ok e
  | .single c, v, e =>
    match e.add_component c v with
    | .ok r => .ok r.2
    | .error u => .error u
  | .pair a b, d, e =>
    match e.add_component a d.1 with
    | .error u => .error u
    | .ok r1 =>
      match r1.2.add_component b d.2 with
      | .error u => .error u
      | .ok r2 => .ok r2.2

/-- A `System` (src/system.rs as used by src/world.rs): a `Data` shape and a
`run` that mutates both the system's own state (`&mut self`, embedded as a
state `σ`) and the fetched data.  `dispatch_system` in src/world.rs invokes
`run` with the data alone. -/
structure Syst (Ty : Type) (El : Ty → Type) (sh : Shape Ty) (σ : Type) where
  run : σ → ShapeData El sh → σ × ShapeData El sh

/-- `World` (src/world.rs): registered component ids, the entity registry,
and the next-identity counter (`Eid = usize`, embedded as `Nat`). -/
structure World (Ty : Type) (El : Ty → Type) where
  component_ids : List Ty
  entities : List (Nat × Entity Ty El)
  next_entity_id : Nat

/-- `World::default()`. -/
def World.empty : World Ty El := ⟨[], [], 0⟩

/-- `World::register_component::<C>`: `HashSet::insert`, returning whether
the id was newly inserted. -/
def World.register_component (w : World Ty El) (c : Ty) : Bool × World Ty El :=
  if c ∈ w.component_ids then (false, w)
  else (true, { w with component_ids := c :: w.component_ids })

/-- `World::insert_entity`: store the entity under the next identity and
increment the counter; returns the identity.  `EntityBuilder::build`
delegates here. -/
def World.insert_entity (w : World Ty El) (e : Entity Ty El) :
    Nat × World Ty El :=
  let id := w.next_entity_id
  (id, { w with entities := mapInsert w.entities id e,
                next_entity_id := id + 1 })

/-- `World::get_component_for_entity::<C>`. -/
def World.get_component_for_entity (w : World Ty El) (id : Nat) (c : Ty) :
    Option (El c) :=
  match mapLookup w.entities id with
  | some e => e.get_component c
  | none => none

/-- `World::remove_component_from_entity::<C>`: mutate the stored entity in
place (embedded as re-inserting the updated entity under its key). -/
def World.remove_component_from_entity (w : World Ty El) (id : Nat) (c : Ty) :
    Except Unit (Option (El c) × World Ty El) :=
  match mapLookup w.entities id with
  | none => .ok (none, w)
  | some e =>
    match e.remove_component c with
    | .ok r => .ok (r.1, { w with entities := mapInsert w.entities id r.2 })
    | .error u => .error u

/-- `World::destroy_entity`: `HashMap::remove`. -/
def World.destroy_entity (w : World Ty El) (id : Nat) :
    Option (Entity Ty El) × World Ty El :=
  let r := mapRemove w.entities id
  (r.1, { w with entities := r.2 })

/-- The loop body of `World::dispatch_system` (src/world.rs) over the entity
registry: for each entity, attempt `S::Data::fetch`; on success clone the
data (components are `Copy`, so the clone is the value itself), call
`sys.run` on the clone, and write it back with `Entity::set` (which is
`SystemData::set`).  On failure the entity is skipped.  The system's own
state is threaded through (`&mut sys`). -/
def dispatchEntities {sh : Shape Ty} {σ : Type} (sys : Syst Ty El sh σ) :
    List (Nat × Entity Ty El) → σ →
    Except Unit (List (Nat × Entity Ty El) × σ)
  | [], s => .ok ([], s)
  | (id, e) :: rest, s =>
    match fetchData sh e with
    | none =>
      match dispatchEntities sys rest s with
      | .ok r => .ok ((id, e) :: r.1, r.2)
      | .error u => .error u
    | some data =>
      let new_data := data
      let (s', d') := sys.run s new_data
      match setData sh d' e with
      | .ok e' =>
        match dispatchEntities sys rest s' with
        | .ok r => .ok ((id, e') :: r.1, r.2)
        | .error u => .error u
      | .error u => .error u

/-- `World::dispatch_system` (src/world.rs). -/
def World.dispatch_system {sh : Shape Ty} {σ : Type} (w : World Ty El)
    (sys : Syst Ty El sh σ) (s : σ) : Except Unit (World Ty El × σ) :=
  match dispatchEntities sys w.entities s with
  | .ok r => .ok ({ w with entities := r.1 }, r.2)
  | .error u => .error u

/-- The precondition under which `add_component` / `remove_component` cannot
panic: whatever is stored under the key `c` has dynamic type `c`. -/
def Entity.KeyWT (e : Entity Ty El) (c : Ty) : Prop :=
  ∀ bx, mapLookup e.components c = some bx → bx.1 = c

/-- A system whose state counts its own invocations and which leaves the
data unchanged; its final state observes how often `run` was invoked. -/
def countSys (sh : Shape Ty) : Syst Ty El sh Nat :=
  ⟨fun n d => (n + 1, d)⟩

/-- A system wrapped so that its state additionally counts how often `run`
is invoked; the wrapped system behaves exactly like the original. -/
def instr {sh : Shape Ty} {σ : Type} (sys : Syst Ty El sh σ) :
    Syst Ty El sh (σ × Nat) :=
  ⟨fun p d =>
    let r := sys.run p.1 d
    ((r.1, p.2 + 1), r.2)⟩

/-- `EntityBuilder` (src/entity.rs): the staged entity; the `&mut World`
back-reference is embedded by passing the world to `build`. -/
structure EntityBuilder (Ty : Type) (El : Ty → Type) where
  entity : Entity Ty El

/-- `World::create_entity`: a builder with an empty staged entity. -/
def World.create_entity (_w : World Ty El) : EntityBuilder Ty El := ⟨⟨[]⟩⟩

/-- `EntityBuilder::with`: stage one component (the returned old value is
discarded; a panic propagates). -/
def EntityBuilder.withComp (b : EntityBuilder Ty El) (c : Ty) (v : El c) :
    Except Unit (EntityBuilder Ty El) :=
  match b.entity.add_component c v with
  | .ok r => .ok ⟨r.2⟩
  | .error u => .error u

/-- `EntityBuilder::build`: hand the staged entity to `World::insert_entity`. -/
def EntityBuilder.build (b : EntityBuilder Ty El) (w : World Ty El) :
    Nat × World Ty El :=
  w.insert_entity b.entity

/-- One observable `World` operation for identity-allocation traces:
entity construction (`create_entity().with(..).build()`), destruction, and
component registration. -/
inductive WOp (Ty : Type) (El : Ty → Type) where
  | insert (e : Entity Ty El)
  | destroy (id : Nat)
  | register (c : Ty)

/-- Apply one operation; an `insert` also reports the identity that
`build` returned. -/
def applyOp (w : World Ty El) : WOp Ty El → World Ty El × Option Nat
  | .insert e =>
    let r := (EntityBuilder.mk e).build w
    (r.2, some r.1)
  | .destroy id => ((w.destroy_entity id).2, none)
  | .register c => ((w.register_component c).2, none)

/-- Run a trace of operations, collecting the identities returned by the
`build` calls, in order. -/
def runOps : World Ty El → List (WOp Ty El) → World Ty El × List Nat
  | w, [] => (w, [])
  | w, op :: rest =>
    let r := applyOp w op
    let r2 := runOps r.1 rest
    (r2.1, match r.2 with | some id => id :: r2.2 | none => r2.2)

/-- The registry invariant: every entity identity that is a key of the
registry is strictly below the next-identity counter, and no key is bound
twice. -/
def World.Inv (w : World Ty El) : Prop :=
  (∀ id ∈ w.entities.map Prod.fst, id < w.next_entity_id)
  ∧ (w.entities.map Prod.fst).Nodup

instance (w : World Ty El) : Decidable w.Inv := by
  unfold World.Inv
  infer_instance

end TypedStore

section Resources

variable {Ty : Type} [DecidableEq Ty] {El : Ty → Type}
variable {RTy : Type} [DecidableEq RTy] {REl : RTy → Type}

/-- `World::get_resource` seen as a function of the store: singleton lookup
by resource type identifier, downcast on read (src/system.rs's
`ResourceData::fetch_res` then clones the result, and components/resources
are plain values here, so the clone is the value itself). -/
def getRes (store : List (RTy × Sigma REl)) (r : RTy) : Option (REl r) :=
  match mapLookup store r with
  | some bx => downcast r bx
  | none => none

/-- Modelled from the spec: src/world.rs's `World` has no resource store,
yet src/system.rs's `ResourceData` reads one through `World::get_resource`
and `System::run` takes a `Resources` argument that src/world.rs's dispatch
loop never supplies.  The missing store — "(d) a global resource store
(component-type-identifier-keyed single-instance values, independent of any
entity)" — is modelled alongside the `World`. -/
structure WorldR (Ty : Type) (El : Ty → Type) (RTy : Type) (REl : RTy → Type) where
  base : World Ty El
  resources : List (RTy × Sigma REl)

/-- Modelled from the spec: `World::get_resource`, the singleton accessor
of the global resource store (missing from src/world.rs, called by
`ResourceData::fetch_res` in src/system.rs). -/
def WorldR.get_resource (w : WorldR Ty El RTy REl) (r : RTy) : Option (REl r) :=
  getRes w.resources r

/-- Modelled from the spec: `World::add_resource`, replacing any prior
instance of the resource type. -/
def WorldR.add_resource (w : WorldR Ty El RTy REl) (r : RTy) (v : REl r) :
    WorldR Ty El RTy REl :=
  ⟨w.base, mapInsert w.resources r ⟨r, v⟩⟩

/-- Modelled from the spec: the dispatch loop matching the two-argument
`System::run` of src/system.rs (src/world.rs's loop pre-dates the
`Resources` associated type and passes the data alone).  Per entity whose
`Data` fetch succeeds, the system's required resource is fetched from the
World's store and `run` is invoked with the mutable data clone and the
fetched resource; the spec leaves the absent-resource case unspecified, so
— all-or-nothing, like `SystemData` — the entity is then skipped.  The
store itself is read-only during the pass. -/
def dispatchEntitiesRes {sh : Shape Ty} {σ : Type} (r : RTy)
    (store : List (RTy × Sigma REl))
    (runf : σ → ShapeData El sh → REl r → σ × ShapeData El sh) :
    List (Nat × Entity Ty El) → σ →
    Except Unit (List (Nat × Entity Ty El) × σ)
  | [], s => .ok ([], s)
  | (id, e) :: rest, s =>
    match fetchData sh e with
    | none =>
      match dispatchEntitiesRes r store runf rest s with
      | .ok p => .ok ((id, e) :: p.1, p.2)
      | .error u => .error u
    | some data =>
      match getRes store r with
      | none =>
        match dispatchEntitiesRes r store runf rest s with
        | .ok p => .ok ((id, e) :: p.1, p.2)
        | .error u => .error u
      | some rv =>
        let pr := runf s data rv
        match setData sh pr.2 e with
        | .ok e' =>
          match dispatchEntitiesRes r store runf rest pr.1 with
          | .ok p => .ok ((id, e') :: p.1, p.2)
          | .error u => .error u
        | .error u => .error u

/-- Modelled from the spec: `dispatch_system` for a resource-requiring
system, iterating the registry as src/world.rs does and handing each
qualifying entity's data clone together with the fetched resources to
`run`. -/
def WorldR.dispatch_system_res {sh : Shape Ty} {σ : Type}
    (w : WorldR Ty El RTy REl) (r : RTy)
    (runf : σ → ShapeData El sh → REl r → σ × ShapeData El sh) (s : σ) :
    Except Unit (WorldR Ty El RTy REl × σ) :=
  match dispatchEntitiesRes r w.resources runf w.base.entities s with
  | .ok p => .ok (⟨{ w.base with entities := p.1 }, w.resources⟩, p.2)
  | .error u => .error u

/-- A system that records every `(data, resource)` argument pair its `run`
receives, leaving the data unchanged. -/
def recordRun (sh : Shape Ty) (r : RTy) :
    List (ShapeData El sh × REl r) → ShapeData El sh → REl r →
    List (ShapeData El sh × REl r) × ShapeData El sh :=
  fun s d rv => (s ++ [(d, rv)], d)

end Resources

section Concrete

/-! A concrete component universe (the `Pos`/`Vel` scenario of the crate's
tests and docs, with integer coordinates) used to evaluate the definitions
on closed inputs. -/

inductive CTy where
  | pos
  | vel
  deriving DecidableEq

structure Pos where
  x : Int
  y : Int
  deriving DecidableEq

structure Vel where
  x : Int
  y : Int
  deriving DecidableEq

def CEl : CTy → Type
  | .pos => Pos
  | .vel => Vel

instance : (t : CTy) → DecidableEq (CEl t)
  | .pos => inferInstanceAs (DecidableEq Pos)
  | .vel => inferInstanceAs (DecidableEq Vel)

/-- An entity holding `Pos {0,0}` and `Vel {10,10}` (E1 of the spec's
scenario). -/
def ePosVel : Entity CTy CEl :=
  ⟨[(CTy.pos, ⟨CTy.pos, (⟨0, 0⟩ : Pos)⟩), (CTy.vel, ⟨CTy.vel, (⟨10, 10⟩ : Vel)⟩)]⟩

/-- An entity holding only `Pos {0,0}` (E2 of the spec's scenario). -/
def ePosOnly : Entity CTy CEl :=
  ⟨[(CTy.pos, ⟨CTy.pos, (⟨0, 0⟩ : Pos)⟩)]⟩

/-- The world of the spec's scenario: E1 = 0, E2 = 1, counter at 2. -/
def wDemo : World CTy CEl := ⟨[], [(0, ePosVel), (1, ePosOnly)], 2⟩

end Concrete

section ConcreteResources

/-- A concrete resource universe: a single `time` resource holding an
integer. -/
inductive RTyc where
  | time
  deriving DecidableEq

def RElc : RTyc → Type
  | .time => Int

/-- The demo world together with a resource store holding `time = 5`. -/
def wrDemo : WorldR CTy CEl RTyc RElc :=
  ⟨wDemo, [(RTyc.time, ⟨RTyc.time, (5 : Int)⟩)]⟩

end ConcreteResources

@[simp] theorem mapLookup_nil (k : K) : mapLookup ([] : List (K × V)) k = none := rfl

@[simp] theorem mapLookup_cons (p : K × V) (rest : List (K × V)) (k : K) :
    mapLookup (p :: rest) k = if p.1 = k then some p.2 else mapLookup rest k := rfl

@[simp] theorem mapInsert_nil (k : K) (v : V) :
    mapInsert ([] : List (K × V)) k v = [(k, v)] := rfl

@[simp] theorem mapInsert_cons (p : K × V) (rest : List (K × V)) (k : K) (v : V) :
    mapInsert (p :: rest) k v =
      if p.1 = k then (k, v) :: rest else p :: mapInsert rest k v := rfl

theorem mapLookup_mapInsert_self (m : List (K × V)) (k : K) (v : V) :
    mapLookup (mapInsert m k v) k = some v := by
  induction m with
  | nil => simp
  | cons p rest ih =>
    by_cases h : p.1 = k <;> simp [h, ih]

theorem mapLookup_mapInsert_ne (m : List (K × V)) (k k' : K) (v : V) (h : k' ≠ k) :
    mapLookup (mapInsert m k v) k' = mapLookup m k' := by
  induction m with
  | nil => simp [Ne.symm h]
  | cons p rest ih =>
    by_cases hp : p.1 = k
    · simp [hp, Ne.symm h]
    · simp [hp, ih]

/-- Inserting touches no keys beyond `k` and the keys already present. -/
theorem mapInsert_keys (m : List (K × V)) (k : K) (v : V) :
    (mapInsert m k v).map Prod.fst =
      if k ∈ m.map Prod.fst then m.map Prod.fst else m.map Prod.fst ++ [k] := by
  induction m with
  | nil => simp
  | cons p rest ih =>
    by_cases hp : p.1 = k
    · simp [hp]
    · simp only [mapInsert_cons, if_neg hp, List.map_cons, List.mem_cons, ih]
      by_cases hk : k ∈ rest.map Prod.fst
      · simp [hk, Ne.symm hp]
      · simp [hk, Ne.symm hp]

theorem mapRemove_keys_subset (m : List (K × V)) (k : K) :
    ((mapRemove m k).2.map Prod.fst) ⊆ m.map Prod.fst := by
  induction m with
  | nil => simp [mapRemove]
  | cons p rest ih =>
    by_cases hp : p.1 = k
    · simp only [mapRemove, if_pos hp, List.map_cons]
      exact List.subset_cons_of_subset _ (List.Subset.refl _)
    · simp only [mapRemove, if_neg hp, List.map_cons]
      exact List.cons_subset_cons _ ih

theorem mapRemove_keys_sublist (m : List (K × V)) (k : K) :
    ((mapRemove m k).2.map Prod.fst).Sublist (m.map Prod.fst) := by
  induction m with
  | nil => simp [mapRemove]
  | cons p rest ih =>
    by_cases hp : p.1 = k
    · simp only [mapRemove, if_pos hp, List.map_cons]
      exact List.sublist_cons_of_sublist _ (List.Sublist.refl _)
    · simp only [mapRemove, if_neg hp, List.map_cons]
      exact List.Sublist.cons₂ _ ih

theorem mapInsert_keys_nodup (m : List (K × V)) (k : K) (v : V)
    (h : (m.map Prod.fst).Nodup) : ((mapInsert m k v).map Prod.fst).Nodup := by
  rw [mapInsert_keys]
  by_cases hk : k ∈ m.map Prod.fst
  · simpa [hk] using h
  · simp only [if_neg hk]
    exact List.Nodup.append h (List.nodup_singleton k)
      (by simpa [List.disjoint_singleton] using hk)

theorem mem_of_mapLookup_eq_some {K V : Type} [DecidableEq K]
    {m : List (K × V)} {k : K} {v : V} (h : mapLookup m k = some v) :
    (k, v) ∈ m := by
  induction m with
  | nil => simp at h
  | cons p rest ih =>
    by_cases hp : p.1 = k
    · simp only [mapLookup_cons, if_pos hp] at h
      obtain ⟨p1, p2⟩ := p
      cases hp
      cases h
      exact List.mem_cons_self _ _
    · simp only [mapLookup_cons, if_neg hp] at h
      exact List.mem_cons_of_mem _ (ih h)

theorem mapRemove_fst {K V : Type} [DecidableEq K] (m : List (K × V)) (k : K) :
    (mapRemove m k).1 = mapLookup m k := by
  induction m with
  | nil => rfl
  | cons p rest ih =>
    by_cases hp : p.1 = k <;> simp [mapRemove, hp, ih]

section TypedStoreThms

variable {Ty : Type} [DecidableEq Ty] {El : Ty → Type}

@[simp] theorem downcast_mk_self (c : Ty) (x : El c) :
    downcast c (⟨c, x⟩ : Sigma El) = some x := by
  simp [downcast]

theorem downcast_eq_none_of_ne (c : Ty) (v : Sigma El) (h : v.1 ≠ c) :
    downcast c v = none := by
  simp [downcast, h]

theorem downcast_isSome_iff (c : Ty) (v : Sigma El) :
    (downcast c v).isSome = true ↔ v.1 = c := by
  constructor
  · intro h
    by_contra hne
    simp [downcast, hne] at h
  · intro h
    subst h
    simp [downcast]

theorem eq_of_downcast_eq_some {c : Ty} {bx : Sigma El} {x : El c}
    (h : downcast c bx = some x) : bx = ⟨c, x⟩ := by
  obtain ⟨t, y⟩ := bx
  by_cases ht : t = c
  · subst ht
    simp only [downcast_mk_self, Option.some.injEq] at h
    rw [h]
  · simp [downcast, ht] at h

theorem Entity.KeyWT_of_WT {e : Entity Ty El} (h : e.WT) (c : Ty) :
    e.KeyWT c := by
  intro bx hbx
  exact h (c, bx) (mem_of_mapLookup_eq_some hbx)

theorem Entity.KeyWT_of_has {e : Entity Ty El} {c : Ty}
    (h : e.has c = true) : e.KeyWT c := by
  intro bx hbx
  unfold Entity.has Entity.get_component at h
  rw [hbx] at h
  exact (downcast_isSome_iff c bx).mp h

/-- `add_component` under the key invariant: no panic, the previous value of
type `C` (exactly `get_component`'s view) is returned, and the map gets the
new value under `c`. -/
theorem add_component_spec (e : Entity Ty El) (c : Ty) (v : El c)
    (h : e.KeyWT c) :
    e.add_component c v =
      .ok (e.get_component c, ⟨mapInsert e.components c ⟨c, v⟩⟩) := by
  unfold Entity.add_component Entity.get_component
  cases hl : mapLookup e.components c with
  | none => rfl
  | some bx =>
    have hbx := h bx hl
    obtain ⟨t, y⟩ := bx
    cases hbx
    simp

/-- `remove_component` under the key invariant: no panic, the detached value
(exactly `get_component`'s view) is returned, and the binding is dropped. -/
theorem remove_component_spec (e : Entity Ty El) (c : Ty)
    (h : e.KeyWT c) :
    e.remove_component c =
      .ok (e.get_component c,
        if (mapLookup e.components c).isSome then ⟨(mapRemove e.components c).2⟩
        else e) := by
  unfold Entity.remove_component Entity.get_component
  have hfst := mapRemove_fst e.components c
  cases hl : mapLookup e.components c with
  | none =>
    rw [hl] at hfst
    cases hrem : mapRemove e.components c with
    | mk o rest =>
      rw [hrem] at hfst
      cases hfst
      simp
  | some bx =>
    have hbx := h bx hl
    rw [hl] at hfst
    cases hrem : mapRemove e.components c with
    | mk o rest =>
      rw [hrem] at hfst
      cases hfst
      obtain ⟨t, y⟩ := bx
      cases hbx
      simp

/-- After a successful `fetch`, `set` cannot panic: every key the shape
writes holds a value of the right dynamic type. -/
theorem setData_ok (sh : Shape Ty) (e : Entity Ty El)
    (hf : (fetchData sh e).isSome = true) (d : ShapeData El sh) :
    ∃ e', setData sh d e = .ok e' := by
  cases sh with
  | unit => exact ⟨e, rfl⟩
  | single c =>
    simp only [fetchData] at hf
    have hk : e.KeyWT c := Entity.KeyWT_of_has hf
    exact ⟨_, by rw [setData, add_component_spec e c d hk]⟩
  | pair a b =>
    simp only [fetchData] at hf
    cases ha : e.get_component a with
    | none => rw [ha] at hf; simp at hf
    | some x =>
      cases hb : e.get_component b with
      | none => rw [ha, hb] at hf; simp at hf
      | some y =>
        have hka : e.KeyWT a := Entity.KeyWT_of_has (by simp [Entity.has, ha])
        have hkb : (⟨mapInsert e.components a ⟨a, d.1⟩⟩ : Entity Ty El).KeyWT b := by
          intro bx hbx
          by_cases hab : b = a
          · subst hab
            rw [mapLookup_mapInsert_self] at hbx
            cases hbx
            rfl
          · rw [mapLookup_mapInsert_ne _ _ _ _ hab] at hbx
            exact Entity.KeyWT_of_has (e := e) (by simp [Entity.has, hb]) bx hbx
        refine ⟨⟨mapInsert (mapInsert e.components a ⟨a, d.1⟩) b ⟨b, d.2⟩⟩, ?_⟩
        simp only [setData, add_component_spec e a d.1 hka,
          add_component_spec (⟨mapInsert e.components a ⟨a, d.1⟩⟩ : Entity Ty El) b d.2 hkb]

/-- The frame property of the dispatch loop: it never panics, it keeps the
identities (in order), and every entity whose fetch fails is kept untouched. -/
theorem dispatchEntities_spec {sh : Shape Ty} {σ : Type} (sys : Syst Ty El sh σ)
    (l : List (Nat × Entity Ty El)) (s : σ) :
    ∃ l' s', dispatchEntities sys l s = .ok (l', s')
      ∧ l'.map Prod.fst = l.map Prod.fst
      ∧ ∀ p ∈ l, fetchData sh p.2 = none → p ∈ l' := by
  induction l generalizing s with
  | nil => exact ⟨[], s, rfl, rfl, by simp⟩
  | cons p rest ih =>
    obtain ⟨id, e⟩ := p
    cases hf : fetchData sh e with
    | none =>
      obtain ⟨l', s', hres, hkeys, hmem⟩ := ih s
      refine ⟨(id, e) :: l', s', ?_, by simp [hkeys], ?_⟩
      · simp only [dispatchEntities, hf, hres]
      · intro q hq hqf
        rcases List.mem_cons.mp hq with h | h
        · cases h
          exact List.mem_cons_self _ _
        · exact List.mem_cons_of_mem _ (hmem q h hqf)
    | some data =>
      rcases hr : sys.run s data with ⟨s1, d1⟩
      obtain ⟨e', hset⟩ := setData_ok sh e (by rw [hf]; rfl) d1
      obtain ⟨l', s', hres, hkeys, hmem⟩ := ih s1
      refine ⟨(id, e') :: l', s', ?_, by simp [hkeys], ?_⟩
      · simp only [dispatchEntities, hf, hr, hset, hres]
      · intro q hq hqf
        rcases List.mem_cons.mp hq with h | h
        · cases h
          rw [hqf] at hf
          cases hf
        · exact List.mem_cons_of_mem _ (hmem q h hqf)

/-- Dispatching the counting system invokes `run` exactly once per entity
whose fetch succeeds. -/
theorem dispatchEntities_count (sh : Shape Ty)
    (l : List (Nat × Entity Ty El)) (n : Nat) :
    ∃ l', dispatchEntities (countSys sh) l n
      = .ok (l', n + (l.filter fun p => (fetchData sh p.2).isSome).length) := by
  induction l generalizing n with
  | nil => exact ⟨[], by simp [dispatchEntities]⟩
  | cons p rest ih =>
    obtain ⟨id, e⟩ := p
    cases hf : fetchData sh e with
    | none =>
      obtain ⟨l', hres⟩ := ih n
      refine ⟨(id, e) :: l', ?_⟩
      simp only [dispatchEntities, hf, hres, List.filter_cons, Option.isSome_none,
        Bool.false_eq_true, if_false]
    | some data =>
      obtain ⟨e', hset⟩ := setData_ok sh e (by rw [hf]; rfl) data
      obtain ⟨l', hres⟩ := ih (n + 1)
      refine ⟨(id, e') :: l', ?_⟩
      have harith : n + 1 + (rest.filter fun p => (fetchData sh p.2).isSome).length
          = n + ((rest.filter fun p => (fetchData sh p.2).isSome).length + 1) := by
        omega
      simp only [countSys] at hres
      simp only [countSys, dispatchEntities, hf, hset, hres, List.filter_cons,
        Option.isSome_some, if_true, List.length_cons, harith]

/-- Dispatch with the `()` shape touches nothing: `fetch` is `None` for
every entity, so every entity is skipped and the state never changes. -/
theorem dispatchEntities_unit {σ : Type} (sys : Syst Ty El Shape.unit σ)
    (l : List (Nat × Entity Ty El)) (s : σ) :
    dispatchEntities sys l s = .ok (l, s) := by
  induction l with
  | nil => rfl
  | cons p rest ih =>
    obtain ⟨id, e⟩ := p
    simp only [dispatchEntities, fetchData, ih]

/-- Dispatching any instrumented system invokes `run` exactly once per
entity whose fetch succeeds. -/
theorem dispatchEntities_instr_count {sh : Shape Ty} {σ : Type}
    (sys : Syst Ty El sh σ) (l : List (Nat × Entity Ty El)) (s : σ) (n : Nat) :
    ∃ l' s', dispatchEntities (instr sys) l (s, n)
      = .ok (l', (s', n + (l.filter fun p => (fetchData sh p.2).isSome).length)) := by
  induction l generalizing s n with
  | nil => exact ⟨[], s, by simp [dispatchEntities]⟩
  | cons p rest ih =>
    obtain ⟨id, e⟩ := p
    cases hf : fetchData sh e with
    | none =>
      obtain ⟨l', s', hres⟩ := ih s n
      refine ⟨(id, e) :: l', s', ?_⟩
      simp only [dispatchEntities, hf, hres, List.filter_cons, Option.isSome_none,
        Bool.false_eq_true, if_false]
    | some data =>
      rcases hr : sys.run s data with ⟨s1, d1⟩
      obtain ⟨e', hset⟩ := setData_ok sh e (by rw [hf]; rfl) d1
      obtain ⟨l', s', hres⟩ := ih s1 (n + 1)
      refine ⟨(id, e') :: l', s', ?_⟩
      have harith : n + 1 + (rest.filter fun p => (fetchData sh p.2).isSome).length
          = n + ((rest.filter fun p => (fetchData sh p.2).isSome).length + 1) := by
        omega
      simp only [instr] at hres
      simp only [dispatchEntities, instr, hf, hr, hset, hres, List.filter_cons,
        Option.isSome_some, if_true, List.length_cons, harith]

/-- No operation ever decreases the identity counter. -/
theorem applyOp_next_ge (w : World Ty El) (op : WOp Ty El) :
    w.next_entity_id ≤ (applyOp w op).1.next_entity_id := by
  cases op with
  | insert e => exact Nat.le_succ _
  | destroy id => exact Nat.le_refl _
  | register c =>
    simp only [applyOp, World.register_component]
    split <;> exact Nat.le_refl _

/-- Identities handed out along a trace are strictly increasing, and all of
them are at least the starting counter. -/
theorem runOps_ids (w : World Ty El) (ops : List (WOp Ty El)) :
    ((runOps w ops).2).Pairwise (· < ·)
    ∧ ∀ id ∈ (runOps w ops).2, w.next_entity_id ≤ id := by
  induction ops generalizing w with
  | nil => exact ⟨List.Pairwise.nil, by simp [runOps]⟩
  | cons op rest ih =>
    obtain ⟨hpw, hlow⟩ := ih (applyOp w op).1
    have hge := applyOp_next_ge w op
    cases op with
    | insert e =>
      have hnext : (applyOp w (WOp.insert e)).1.next_entity_id
          = w.next_entity_id + 1 := rfl
      constructor
      · refine List.Pairwise.cons ?_ hpw
        intro id hid
        have h1 := hlow id hid
        rw [hnext] at h1
        exact Nat.lt_of_succ_le h1
      · intro id hid
        rcases List.mem_cons.mp hid with h | h
        · cases h
          exact Nat.le_refl _
        · exact Nat.le_trans hge (hlow id h)
    | destroy i =>
      exact ⟨hpw, fun id hid => Nat.le_trans hge (hlow id hid)⟩
    | register c =>
      exact ⟨hpw, fun id hid => Nat.le_trans hge (hlow id hid)⟩

end TypedStoreThms

section ClaimTheorems

variable {Ty : Type} [DecidableEq Ty] {El : Ty → Type}

/-- C1: for a `Data` shape `(A, B)`, `fetch` succeeds exactly on the
entities holding both an `A` and a `B` component — an entity holding only
one of them (or neither) yields `None`, never a partially populated tuple —
and dispatching any system with that shape invokes `run` exactly once per
such entity (observed through an invocation counter threaded through the
system's own state). -/
theorem C1_pair_dispatch_runs_iff_both_components {σ : Type} (a b : Ty)
    (e : Entity Ty El) (w : World Ty El)
    (sys : Syst Ty El (Shape.pair a b) σ) (s : σ) :
    (fetchData (Shape.pair a b) e).isSome = (e.has a && e.has b)
    ∧ ∃ w' s', w.dispatch_system (instr sys) (s, 0)
        = .ok (w', (s', (w.entities.filter fun p =>
            (fetchData (Shape.pair a b) p.2).isSome).length)) := by
  constructor
  · simp only [fetchData, Entity.has]
    cases e.get_component a <;> cases e.get_component b <;> simp
  · obtain ⟨l', s', hres⟩ := dispatchEntities_instr_count sys w.entities s 0
    refine ⟨{ w with entities := l' }, s', ?_⟩
    simp only [World.dispatch_system, hres, Nat.zero_add]

/-- C2: for every system and every world state, `dispatch_system` never
panics, never creates or removes entities (the registry's identities are
unchanged, in order, as is the identity counter), and every entity whose
fetch yields `None` is kept with all its components unchanged. -/
theorem C2_dispatch_preserves_identities_and_skipped_entities
    {sh : Shape Ty} {σ : Type} (sys : Syst Ty El sh σ) (s : σ)
    (w : World Ty El) :
    ∃ w' s', w.dispatch_system sys s = .ok (w', s')
      ∧ w'.entities.map Prod.fst = w.entities.map Prod.fst
      ∧ w'.next_entity_id = w.next_entity_id
      ∧ ∀ p ∈ w.entities, fetchData sh p.2 = none → p ∈ w'.entities := by
  obtain ⟨l', s', hres, hkeys, hmemp⟩ := dispatchEntities_spec sys w.entities s
  exact ⟨{ w with entities := l' }, s',
    by simp only [World.dispatch_system, hres], hkeys, rfl, hmemp⟩

/-- C2 witness: in the two-entity demo world, dispatching a `(Pos, Vel)`
system keeps both identities and the counter, and leaves E2 (which lacks
`Vel`) untouched. -/
theorem C2_dispatch_preserves_identities_witness :
    ∃ w' s', wDemo.dispatch_system (countSys (Shape.pair CTy.pos CTy.vel)) 0
        = .ok (w', s')
      ∧ w'.entities.map Prod.fst = wDemo.entities.map Prod.fst
      ∧ w'.next_entity_id = wDemo.next_entity_id
      ∧ (1, ePosOnly) ∈ w'.entities := by
  obtain ⟨w', s', h1, h2, h3, h4⟩ :=
    C2_dispatch_preserves_identities_and_skipped_entities
      (countSys (Shape.pair CTy.pos CTy.vel)) 0 wDemo
  exact ⟨w', s', h1, h2, h3,
    h4 (1, ePosOnly) (List.Mem.tail _ (List.Mem.head _)) rfl⟩

/-- C3 (the claim is what the code should do; the code does the opposite):
in src/system.rs the `()` instance of `SystemData` has `fetch` return
`None` for every entity, so the empty shape matches no entity at all and a
system whose `Data` is `()` is never run — dispatch returns the world and
the system state exactly unchanged. -/
theorem C3_unit_shape_matches_no_entity {σ : Type} (e : Entity Ty El)
    (w : World Ty El) (sys : Syst Ty El Shape.unit σ) (s : σ) :
    fetchData Shape.unit e = none ∧ w.dispatch_system sys s = .ok (w, s) := by
  refine ⟨rfl, ?_⟩
  simp only [World.dispatch_system, dispatchEntities_unit]

/-- C4 (the claim is what the code's own documentation promises; the code
faults): `get_mut_component` unwraps the map lookup, so it panics when the
entity does not hold the component instead of returning the absent value;
with the component present it does return the mutable view of it. -/
theorem C4_get_mut_component_panics_when_absent :
    (⟨[]⟩ : Entity CTy CEl).get_mut_component CTy.vel = .error ()
    ∧ ePosOnly.get_mut_component CTy.pos = .ok (some (⟨0, 0⟩ : Pos)) := by
  constructor <;> rfl

/-- C5: along any trace of builds, destroys and registrations from any
starting world, the identities returned by the `build` calls are strictly
increasing, and no identity is ever handed out twice — destruction does not
make an identity reusable. -/
theorem C5_build_ids_strictly_increasing_never_reused
    (w : World Ty El) (ops : List (WOp Ty El)) :
    ((runOps w ops).2).Pairwise (· < ·) ∧ ((runOps w ops).2).Nodup :=
  ⟨(runOps_ids w ops).1, ((runOps_ids w ops).1).imp Nat.ne_of_lt⟩

/-- C7: under the storage invariant, `add_component` returns exactly the
previously stored value of that component type (the absent value when none
existed) without panicking, and an immediately following `get_component`
returns the value just added. -/
theorem C7_add_component_then_get (e : Entity Ty El) (c : Ty) (v : El c)
    (hwt : e.WT) :
    e.add_component c v
        = .ok (e.get_component c, ⟨mapInsert e.components c ⟨c, v⟩⟩)
      ∧ (⟨mapInsert e.components c ⟨c, v⟩⟩ : Entity Ty El).get_component c
        = some v := by
  refine ⟨add_component_spec e c v (Entity.KeyWT_of_WT hwt c), ?_⟩
  simp only [Entity.get_component, mapLookup_mapInsert_self, downcast_mk_self]

/-- C7 witness: replacing E1's `Pos {0,0}` by `Pos {3,4}` returns the old
`Pos` and `get_component` then sees `Pos {3,4}`. -/
theorem C7_add_component_then_get_witness :
    ePosVel.add_component CTy.pos (⟨3, 4⟩ : Pos)
        = .ok (some (⟨0, 0⟩ : Pos),
            ⟨mapInsert ePosVel.components CTy.pos ⟨CTy.pos, (⟨3, 4⟩ : Pos)⟩⟩)
      ∧ (⟨mapInsert ePosVel.components CTy.pos ⟨CTy.pos, (⟨3, 4⟩ : Pos)⟩⟩ :
            Entity CTy CEl).get_component CTy.pos = some (⟨3, 4⟩ : Pos) :=
  C7_add_component_then_get ePosVel CTy.pos (⟨3, 4⟩ : Pos) (by decide)

/-- C8: `register_component` has set-insertion semantics — `true` on the
first call, `false` on the repeat — and the registered set has no effect on
dispatch: worlds differing only in `component_ids` produce the same
entities and the same system state. -/
theorem C8_register_component_pure_bookkeeping {sh : Shape Ty} {σ : Type}
    (w : World Ty El) (c : Ty) (h : c ∉ w.component_ids) (ids2 : List Ty)
    (sys : Syst Ty El sh σ) (s : σ) :
    (w.register_component c).1 = true
    ∧ ((w.register_component c).2.register_component c).1 = false
    ∧ ∃ ents s', w.dispatch_system sys s = .ok ({ w with entities := ents }, s')
        ∧ ({ w with component_ids := ids2 } : World Ty El).dispatch_system sys s
          = .ok ({ w with component_ids := ids2, entities := ents }, s') := by
  refine ⟨by simp [World.register_component, h], by simp [World.register_component, h], ?_⟩
  obtain ⟨l', s', hres, _, _⟩ := dispatchEntities_spec sys w.entities s
  exact ⟨l', s', by simp only [World.dispatch_system, hres],
    by simp only [World.dispatch_system, hres]⟩

/-- C8 witness: registering `Pos` on the empty world, then a repeat, and a
`Pos`-shaped dispatch that ignores the registration set. -/
theorem C8_register_component_pure_bookkeeping_witness :
    ((World.empty : World CTy CEl).register_component CTy.pos).1 = true
    ∧ (((World.empty : World CTy CEl).register_component CTy.pos).2.register_component
        CTy.pos).1 = false
    ∧ ∃ ents s', (World.empty : World CTy CEl).dispatch_system
          (countSys (Shape.single CTy.pos)) 0
        = .ok ((⟨[], ents, 0⟩ : World CTy CEl), s')
      ∧ (⟨[CTy.vel], [], 0⟩ : World CTy CEl).dispatch_system
          (countSys (Shape.single CTy.pos)) 0
        = .ok ((⟨[CTy.vel], ents, 0⟩ : World CTy CEl), s') :=
  C8_register_component_pure_bookkeeping World.empty CTy.pos (by simp [World.empty])
    [CTy.vel] (countSys (Shape.single CTy.pos)) 0

/-- C9: under the storage invariant — whatever is stored under a type
identifier is a value of that type — the downcast in `add_component` and in
`remove_component` always succeeds, so their panic branch is unreachable:
both calls return `.ok` for every component type and value. -/
theorem C9_downcast_panic_unreachable (e : Entity Ty El) (hwt : e.WT)
    (c : Ty) (v : El c) :
    (∃ r, e.add_component c v = .ok r) ∧ ∃ r, e.remove_component c = .ok r :=
  ⟨⟨_, add_component_spec e c v (Entity.KeyWT_of_WT hwt c)⟩,
   ⟨_, remove_component_spec e c (Entity.KeyWT_of_WT hwt c)⟩⟩

/-- C9 witness: on E1 both operations return `.ok` for `Vel`. -/
theorem C9_downcast_panic_unreachable_witness :
    (∃ r, ePosVel.add_component CTy.vel (⟨1, 2⟩ : Vel) = .ok r)
    ∧ ∃ r, ePosVel.remove_component CTy.vel = .ok r :=
  C9_downcast_panic_unreachable ePosVel (by decide) CTy.vel (⟨1, 2⟩ : Vel)

end ClaimTheorems

section RegistryThms

variable {Ty : Type} [DecidableEq Ty] {El : Ty → Type}

omit [DecidableEq Ty] in
theorem next_not_key {w : World Ty El} (hw : w.Inv) :
    w.next_entity_id ∉ w.entities.map Prod.fst := by
  intro hmem
  exact Nat.lt_irrefl _ (hw.1 _ hmem)

/-- C10: the registry invariant is preserved by `insert_entity`,
`destroy_entity`, `remove_component_from_entity`, `register_component` and
`dispatch_system`; moreover a freshly built entity is stored under its new
identity exactly once. -/
theorem C10_registry_keys_below_counter (w : World Ty El) (hw : w.Inv) :
    (∀ e : Entity Ty El, (w.insert_entity e).2.Inv
      ∧ ((w.insert_entity e).2.entities.map Prod.fst).count
          (w.insert_entity e).1 = 1)
    ∧ (∀ id, (w.destroy_entity id).2.Inv)
    ∧ (∀ id c r, w.remove_component_from_entity id c = .ok r → (r.2).Inv)
    ∧ (∀ c, (w.register_component c).2.Inv)
    ∧ (∀ (sh : Shape Ty) (σ : Type) (sys : Syst Ty El sh σ) (s : σ)
        (w' : World Ty El) (s' : σ),
        w.dispatch_system sys s = .ok (w', s') → w'.Inv) := by
  refine ⟨?_, ?_, ?_, ?_, ?_⟩
  · intro e
    have hfresh := next_not_key hw
    have hkeys : ((w.insert_entity e).2.entities.map Prod.fst)
        = w.entities.map Prod.fst ++ [w.next_entity_id] := by
      simp only [World.insert_entity, mapInsert_keys, if_neg hfresh]
    refine ⟨⟨?_, ?_⟩, ?_⟩
    · intro id hid
      rw [hkeys] at hid
      rcases List.mem_append.mp hid with h | h
      · exact Nat.lt_succ_of_lt (hw.1 _ h)
      · rcases List.mem_singleton.mp h with rfl
        exact Nat.lt_succ_self _
    · rw [hkeys]
      exact List.Nodup.append hw.2 (List.nodup_singleton _)
        (by simpa [List.disjoint_singleton] using hfresh)
    · have hid1 : (w.insert_entity e).1 = w.next_entity_id := rfl
      rw [hkeys, List.count_append, hid1, List.count_eq_zero_of_not_mem hfresh]
      simp
  · intro id
    constructor
    · intro k hk
      exact hw.1 _ (mapRemove_keys_subset w.entities id hk)
    · exact List.Sublist.nodup (mapRemove_keys_sublist w.entities id) hw.2
  · intro id c r hr
    cases hl : mapLookup w.entities id with
    | none =>
      rw [World.remove_component_from_entity, hl] at hr
      cases hr
      exact hw
    | some e =>
      simp only [World.remove_component_from_entity, hl] at hr
      cases hrc : e.remove_component c with
      | error u =>
        rw [hrc] at hr
        exact Except.noConfusion hr
      | ok q =>
        rw [hrc] at hr
        cases hr
        have hidmem : id ∈ w.entities.map Prod.fst :=
          List.mem_map.mpr ⟨(id, e), mem_of_mapLookup_eq_some hl, rfl⟩
        have hkeys : (mapInsert w.entities id q.2).map Prod.fst
            = w.entities.map Prod.fst := by
          rw [mapInsert_keys, if_pos hidmem]
        exact ⟨fun k hk => hw.1 k (by rwa [hkeys] at hk), by rw [hkeys]; exact hw.2⟩
  · intro c
    rw [World.register_component]
    split
    · exact hw
    · exact hw
  · intro sh σ sys s w' s' hdis
    obtain ⟨l', s2, hres, hkeys, _⟩ := dispatchEntities_spec sys w.entities s
    rw [World.dispatch_system, hres] at hdis
    cases hdis
    exact ⟨fun k hk => hw.1 k (by rwa [hkeys] at hk), by rw [hkeys]; exact hw.2⟩

/-- C10 witness: the demo world satisfies the invariant; inserting a fresh
entity preserves it and stores the new entity exactly once under identity
`2`, and destroying entity `0` preserves it. -/
theorem C10_registry_keys_below_counter_witness :
    ((wDemo.insert_entity ⟨[]⟩).2.Inv
      ∧ ((wDemo.insert_entity ⟨[]⟩).2.entities.map Prod.fst).count
          (wDemo.insert_entity ⟨[]⟩).1 = 1)
    ∧ (wDemo.destroy_entity 0).2.Inv := by
  have h := C10_registry_keys_below_counter wDemo (by decide)
  exact ⟨h.1 ⟨[]⟩, h.2.1 0⟩

end RegistryThms

section ResourceThms

variable {Ty : Type} [DecidableEq Ty] {El : Ty → Type}
variable {RTy : Type} [DecidableEq RTy] {REl : RTy → Type}

theorem dispatchEntitiesRes_record {sh : Shape Ty} (r : RTy) (rv : REl r)
    (store : List (RTy × Sigma REl)) (hrv : getRes store r = some rv)
    (l : List (Nat × Entity Ty El)) (acc : List (ShapeData El sh × REl r)) :
    ∃ l', dispatchEntitiesRes r store (recordRun sh r) l acc
      = .ok (l', acc ++ l.filterMap fun p =>
          (fetchData sh p.2).map fun d => (d, rv)) := by
  induction l generalizing acc with
  | nil => exact ⟨[], by simp [dispatchEntitiesRes]⟩
  | cons p rest ih =>
    obtain ⟨id, e⟩ := p
    cases hf : fetchData sh e with
    | none =>
      obtain ⟨l', hres⟩ := ih acc
      refine ⟨(id, e) :: l', ?_⟩
      simp only [dispatchEntitiesRes, hf, hres, List.filterMap_cons, Option.map_none']
    | some data =>
      obtain ⟨e', hset⟩ := setData_ok sh e (by rw [hf]; rfl) data
      obtain ⟨l', hres⟩ := ih (acc ++ [(data, rv)])
      refine ⟨(id, e') :: l', ?_⟩
      have happ : (acc ++ [(data, rv)]) ++ (rest.filterMap fun p =>
            (fetchData sh p.2).map fun d => (d, rv))
          = acc ++ ((data, rv) :: rest.filterMap fun p =>
            (fetchData sh p.2).map fun d => (d, rv)) := by
        rw [List.append_assoc, List.singleton_append]
      simp only [dispatchEntitiesRes, hf, hrv, recordRun, hset, hres, happ,
        List.filterMap_cons, Option.map_some']

end ResourceThms

section ResourceClaims

variable {Ty : Type} [DecidableEq Ty] {El : Ty → Type}
variable {RTy : Type} [DecidableEq RTy] {REl : RTy → Type}

/-- C6: in the resource-passing dispatch (modelled from the spec, as
src/world.rs's loop never fetches resources), whenever the required
resource is present in the World's store, `run` is invoked exactly once per
entity whose `Data` fetch succeeds and receives the fetched data clone
together with the resource value fetched from the store; the store itself
is unchanged by the dispatch (resources are read-only during `run`). -/
theorem C6_dispatch_fetches_and_passes_resources (sh : Shape Ty)
    (w : WorldR Ty El RTy REl) (r : RTy) (rv : REl r)
    (hres : w.get_resource r = some rv) :
    ∃ ents, w.dispatch_system_res r (recordRun sh r) []
      = .ok (⟨{ w.base with entities := ents }, w.resources⟩,
          w.base.entities.filterMap fun p =>
            (fetchData sh p.2).map fun d => (d, rv)) := by
  obtain ⟨l', hrec⟩ := dispatchEntitiesRes_record r rv w.resources hres
    w.base.entities ([] : List (ShapeData El sh × REl r))
  refine ⟨l', ?_⟩
  simp only [WorldR.dispatch_system_res, hrec, List.nil_append]

end ResourceClaims

/-- C6 witness: dispatching a recording `(Pos, Vel)` system over the demo
world passes `time = 5` to `run` for the single qualifying entity and
leaves the store unchanged. -/
theorem C6_dispatch_fetches_and_passes_resources_witness :
    ∃ ents, wrDemo.dispatch_system_res RTyc.time
        (recordRun (Shape.pair CTy.pos CTy.vel) RTyc.time) []
      = .ok (⟨{ wrDemo.base with entities := ents }, wrDemo.resources⟩,
          wrDemo.base.entities.filterMap fun p =>
            (fetchData (Shape.pair CTy.pos CTy.vel) p.2).map
              fun d => (d, (5 : Int))) :=
  C6_dispatch_fetches_and_passes_resources (Shape.pair CTy.pos CTy.vel)
    wrDemo RTyc.time (5 : Int) rfl

end Ecsnap
